import Mathlib

set_option maxRecDepth 100000

/-!
Verification of the goContextIO signing client.

The repository has three variants of the same small library:
* `src/contextIO.go` (the primary variant): `Do` builds an `http.Request` with
  `http.NewRequest`, normalizes the path, parses the body of mutating requests
  as form data and passes the parsed values to the OAuth signer.
* `src/unnamed/part_000` (the raw-construction variant): `Do` builds the
  `http.Request` literally, puts the encoded query parameters in `RawQuery`,
  and signs with `nil` form values; the path is not normalized.
* `src/unnamed/part_001` (the wrapper variant): `NewRequest` builds and signs a
  wrapped request, and `AttachFile` converts the body to multipart form data.

Go strings are byte strings; they are embedded as lists of natural numbers
(one entry per byte, each `< 256` for real Go strings; none of the proofs
below need that bound).  `url.Values` is a map from strings to lists of
strings whose encoding and signing always iterate in sorted key order, so it
is embedded as an association list kept sorted by key, which is the canonical
form of the Go map.
-/

namespace GoContext

/-- Go strings, as lists of byte values. -/
abbrev GoStr := List Nat

/-- Bytes of a Lean string literal (used for concrete Go string constants;
all literals used here are ASCII, so `Char.toNat` is the byte value). -/
def strBytes (s : String) : GoStr := s.data.map Char.toNat

/-- Lexicographic (byte-wise) order on Go strings, as Go's `<` on strings. -/
def leStr : GoStr → GoStr → Bool
  | [], _ => true
  | _ :: _, [] => false
  | a :: as, b :: bs => if a < b then true else if b < a then false else leStr as bs

/-- Strict lexicographic order on Go strings. -/
def ltStr (a b : GoStr) : Bool := leStr a b && !(a == b)

/-- `url.Values`: a Go map from string to `[]string`.  Canonical form: an
association list sorted by key (Go's `Encode` and the OAuth signer iterate
the map in sorted key order, so this is the observable content of the map). -/
abbrev Values := List (GoStr × List GoStr)

/-- `m[key] = append(m[key], value)` on the canonical (key-sorted) map. -/
def valuesAdd : Values → GoStr → GoStr → Values
  | [], k, v => [(k, [v])]
  | (k0, vs) :: t, k, v =>
    if k = k0 then (k0, vs ++ [v]) :: t
    else if ltStr k k0 then (k, [v]) :: (k0, vs) :: t
    else (k0, vs) :: valuesAdd t k v

/-- All key/value pairs of a `url.Values`, in canonical order. -/
def flattenV (v : Values) : List (GoStr × GoStr) :=
  v.flatMap fun p => p.2.map fun x => (p.1, x)

/-- Errors of `net/url` unescaping: `url.EscapeError` carries the offending
substring. -/
inductive UrlError
  | escapeError (s : GoStr)
deriving DecidableEq

instance {ε α : Type} [DecidableEq ε] [DecidableEq α] : DecidableEq (Except ε α) :=
  fun a b =>
    match a, b with
    | .ok x, .ok y => decidable_of_iff (x = y) (by simp)
    | .error x, .error y => decidable_of_iff (x = y) (by simp)
    | .ok _, .error _ => isFalse (by simp)
    | .error _, .ok _ => isFalse (by simp)

/-- Decimal value of a hex digit byte (`0-9`, `a-f`, `A-F`). -/
def isHexDigit (c : Nat) : Bool :=
  (48 ≤ c && c ≤ 57) || (97 ≤ c && c ≤ 102) || (65 ≤ c && c ≤ 70)

/-- Numeric value of a hex digit byte. -/
def hexVal (c : Nat) : Nat :=
  if 48 ≤ c && c ≤ 57 then c - 48 else if 97 ≤ c then c - 87 else c - 55

/-- `url.QueryUnescape`: `%XY` becomes the byte `0xXY`, `+` becomes space,
anything else is copied; a `%` not followed by two hex digits is an
`EscapeError` carrying the offending (up to three byte) substring. -/
def queryUnescape : GoStr → Except UrlError GoStr
  | [] => .ok []
  | c :: rest =>
    if c = 37 then
      match rest with
      | h :: l :: rest2 =>
        if isHexDigit h && isHexDigit l then
          (queryUnescape rest2).map fun r => (16 * hexVal h + hexVal l) :: r
        else .error (.escapeError [37, h, l])
      | _ => .error (.escapeError (37 :: rest))
    else if c = 43 then (queryUnescape rest).map fun r => 32 :: r
    else (queryUnescape rest).map fun r => c :: r

/-- Split a query string on `&` (38) and `;` (59), as the era's
`url.parseQuery` does. -/
def splitSegs : GoStr → List GoStr
  | [] => [[]]
  | c :: rest =>
    if c = 38 || c = 59 then [] :: splitSegs rest
    else
      match splitSegs rest with
      | s :: t => (c :: s) :: t
      | [] => [[c]]

/-- Split a segment at the first `=` (61): key and value (empty value when
there is no `=`), as `url.parseQuery` does. -/
def cutEq : GoStr → GoStr × GoStr
  | [] => ([], [])
  | c :: rest =>
    if c = 61 then ([], rest)
    else
      let p := cutEq rest
      (c :: p.1, p.2)

/-- One segment of `url.parseQuery`: empty segments are skipped, otherwise
the key and value are unescaped and added to the map. -/
def parseSeg (acc : Values) (seg : GoStr) : Except UrlError Values :=
  if seg = [] then .ok acc
  else
    let p := cutEq seg
    match queryUnescape p.1 with
    | .error e => .error e
    | .ok k =>
      match queryUnescape p.2 with
      | .error e => .error e
      | .ok v => .ok (valuesAdd acc k v)

/-- `url.ParseQuery`, returning the first error when one occurs (the caller
in `contextIO.go` discards the partially built map on error). -/
def parseQueryE (s : GoStr) : Except UrlError Values :=
  go [] (splitSegs s)
where
  go : Values → List GoStr → Except UrlError Values
  | acc, [] => .ok acc
  | acc, seg :: rest =>
    match parseSeg acc seg with
    | .error e => .error e
    | .ok acc2 => go acc2 rest

/-- `url.Values` obtained from a query string with bad segments dropped, as
`URL.Query()` (used by the OAuth signer) ignores the parse error. -/
def parseQueryDrop (s : GoStr) : Values :=
  (splitSegs s).foldl
    (fun acc seg =>
      match parseSeg acc seg with
      | .error _ => acc
      | .ok acc2 => acc2)
    []

/-- Bytes never escaped by `url.QueryEscape`: letters, digits, `-._~`. -/
def isQueryUnescaped (c : Nat) : Bool :=
  (48 ≤ c && c ≤ 57) || (65 ≤ c && c ≤ 90) || (97 ≤ c && c ≤ 122) ||
  c = 45 || c = 46 || c = 95 || c = 126

/-- Upper-case hex digit byte of a value below 16. -/
def hexDigit (n : Nat) : Nat := if n < 10 then 48 + n else 55 + n

/-- `url.QueryEscape` on one byte: kept, `+` for space, or `%XY`. -/
def queryEscapeChar (c : Nat) : GoStr :=
  if isQueryUnescaped c then [c]
  else if c = 32 then [43]
  else [37, hexDigit (c / 16), hexDigit (c % 16)]

/-- `url.QueryEscape`. -/
def queryEscape (s : GoStr) : GoStr := s.flatMap queryEscapeChar

/-- Join strings with `&` (38). -/
def joinAmp : List GoStr → GoStr
  | [] => []
  | [x] => x
  | x :: y :: t => x ++ 38 :: joinAmp (y :: t)

/-- `url.Values.Encode`: keys in sorted order (the canonical form is already
sorted), each value as `escape(k)=escape(v)`, joined with `&`. -/
def valuesEncode (v : Values) : GoStr :=
  joinAmp (flattenV v |>.map fun p => queryEscape p.1 ++ 61 :: queryEscape p.2)

/-- The parts of a `net/url.URL` value this client uses.  `opq` is the
`URL.Opaque` field: the unescaped path component, kept verbatim. -/
structure UrlT where
  scheme : GoStr
  host : GoStr
  opq : GoStr
  rawQuery : GoStr
deriving DecidableEq

/-- `http.Header`, canonically an association list in insertion order;
`Header.Set` replaces the value of an existing key. -/
abbrev Header := List (GoStr × GoStr)

/-- `Header.Set`. -/
def hset : Header → GoStr → GoStr → Header
  | [], k, v => [(k, v)]
  | (k0, v0) :: t, k, v => if k = k0 then (k, v) :: t else (k0, v0) :: hset t k v

/-- `Header.Get`. -/
def hget : Header → GoStr → Option GoStr
  | [], _ => none
  | (k0, v0) :: t, k => if k = k0 then some v0 else hget t k

/-! ### OAuth signing, modelled from the spec

The signer (`github.com/garyburd/go-oauth/oauth`, not part of this
repository) is modelled from the spec: the signature base string is "the
canonical string (method + URL + sorted parameters) that is cryptographically
signed to produce the Authorization header value", where the parameters are
the OAuth protocol parameters, the URL query parameters and the form values
passed by the caller.  The cryptographic MAC itself is abstracted by a
deterministic placeholder function of the secret and the base string; no
theorem below relies on any property of the MAC beyond determinism. -/

/-- Bytes kept verbatim by RFC 3986 percent-encoding: letters, digits,
`-._~`. -/
def isUnreserved (c : Nat) : Bool :=
  (48 ≤ c && c ≤ 57) || (65 ≤ c && c ≤ 90) || (97 ≤ c && c ≤ 122) ||
  c = 45 || c = 46 || c = 95 || c = 126

/-- Modelled from the spec: RFC 3986 percent-encoding of one byte. -/
def encChar (c : Nat) : GoStr :=
  if isUnreserved c then [c] else [37, hexDigit (c / 16), hexDigit (c % 16)]

/-- Modelled from the spec: RFC 3986 percent-encoding of a string. -/
def encStr (s : GoStr) : GoStr := s.flatMap encChar

/-- One signing parameter rendered as `enc(key)=enc(value)`. -/
def encPair (p : GoStr × GoStr) : GoStr := encStr p.1 ++ 61 :: encStr p.2

/-- Sort strings lexicographically (insertion sort; only the permutation
property is used in proofs). -/
def sortStrs (l : List GoStr) : List GoStr :=
  List.insertionSort (fun a b => leStr a b = true) l

/-- Modelled from the spec: the OAuth protocol parameters of a two-legged
request (consumer key, nonce, signature method, timestamp, version).  The
nonce and timestamp vary per call and are taken as explicit inputs. -/
def oauthBaseParams (key nonce ts : GoStr) : List (GoStr × GoStr) :=
  [(strBytes "oauth_consumer_key", key),
   (strBytes "oauth_nonce", nonce),
   (strBytes "oauth_signature_method", strBytes "HMAC-SHA1"),
   (strBytes "oauth_timestamp", ts),
   (strBytes "oauth_version", strBytes "1.0")]

/-- The URL query parameters seen by the signer (`URL.Query()`, which drops
malformed segments). -/
def queryPairs (u : UrlT) : List (GoStr × GoStr) := flattenV (parseQueryDrop u.rawQuery)

/-- Modelled from the spec: all parameters signed over — protocol
parameters, then URL query parameters, then the form values passed to
`SetAuthorizationHeader`. -/
def signingParams (key nonce ts : GoStr) (u : UrlT) (v : Values) : List (GoStr × GoStr) :=
  (oauthBaseParams key nonce ts ++ queryPairs u) ++ flattenV v

/-- Modelled from the spec: the normalized URL part of the base string,
`scheme://host` followed by the unescaped path. -/
def urlBaseStr (u : UrlT) : GoStr := u.scheme ++ strBytes "://" ++ u.host ++ u.opq

/-- The normalized parameter string: each parameter percent-encoded as
`k=v`, sorted, joined with `&`. -/
def paramString (ps : List (GoStr × GoStr)) : GoStr :=
  joinAmp (sortStrs (ps.map encPair))

/-- Modelled from the spec: the signature base string
`enc(method) & enc(url) & enc(parameter string)`. -/
def sigBaseString (method : GoStr) (u : UrlT) (ps : List (GoStr × GoStr)) : GoStr :=
  encStr method ++ 38 :: (encStr (urlBaseStr u) ++ 38 :: encStr (paramString ps))

/-- Modelled from the spec: placeholder for the cryptographic MAC over the
base string; only its determinism is used. -/
def macSig (secret base : GoStr) : GoStr := encStr secret ++ 38 :: base

/-- Modelled from the spec: the Authorization header value set by
`SetAuthorizationHeader`. -/
def authValue (key secret base : GoStr) : GoStr :=
  strBytes "OAuth " ++ encStr key ++ 38 :: macSig secret base

/-! ### The request model and the three builder variants -/

/-- A part of a multipart body: the uploaded file or a copied form field. -/
inductive Mpart
  | fileField (field fname content : GoStr)
  | formField (key val : GoStr)
deriving DecidableEq

/-- The request body: none, a plain string, or a multipart body. -/
inductive BodyT
  | emptyB
  | str (s : GoStr)
  | multipart (boundary : GoStr) (parts : List Mpart)
deriving DecidableEq

/-- The observable parts of an `http.Request` built by this client.
`sigBase` is specification bookkeeping: the base string the Authorization
header was computed from (`none` when the request was never signed). -/
structure HttpReq where
  method : GoStr
  url : UrlT
  header : Header
  body : BodyT
  postForm : Values
  form : Values
  multipartForm : Option (List Mpart)
  sigBase : Option GoStr
deriving DecidableEq

/-- Header name and value constants used by the client. -/
def uaKey : GoStr := strBytes "User-Agent"

/-- The primary and wrapper variants' user agent. -/
def uaVal : GoStr := strBytes "GoContextIO Simple Library v. 0.1"

/-- The raw-construction variant's user agent. -/
def uaVal000 : GoStr := strBytes "GoContextIO Simple Library"

/-- The `Content-Type` header name. -/
def ctKey : GoStr := strBytes "Content-Type"

/-- The form-encoded content type. -/
def ctFormVal : GoStr := strBytes "application/x-www-form-urlencoded"

/-- The `Authorization` header name. -/
def authKey : GoStr := strBytes "Authorization"

/-- The multipart content type for a given boundary
(`multipart.Writer.FormDataContentType`). -/
def multipartCT (boundary : GoStr) : GoStr :=
  strBytes "multipart/form-data; boundary=" ++ boundary

/-- The mutating-method test of the `switch` in `Do`. -/
def mutatingB (m : GoStr) : Bool :=
  m == strBytes "PUT" || m == strBytes "POST" || m == strBytes "DELETE"

/-- Path normalization (`if q[0:1] != "/" { q = "/" + q }`); the caller must
ensure the path is nonempty or the slice panics. -/
def normPath (q : GoStr) : GoStr := if q.take 1 ≠ [47] then 47 :: q else q

/-- Outcome of the primary variant's `Do` up to dispatch: a Go panic (the
out-of-range slice on an empty path), an error return, or a built signed
request handed to `http.DefaultClient.Do`. -/
inductive DoResult
  | panics
  | fails (e : UrlError)
  | built (r : HttpReq)
deriving DecidableEq

/-- The URL built by the primary variant: `https://{host}{path}` with the
normalized path stored in `Opaque`; `params` is never used by this variant,
so the URL carries no query string (paths containing `?` are outside this
model). -/
def primaryUrl (host q1 : GoStr) : UrlT :=
  { scheme := strBytes "https", host := host, opq := q1, rawQuery := [] }

/-- The primary variant (`src/contextIO.go`, `Do`), up to the dispatch to
`http.DefaultClient`: normalize the path (panic on an empty path), build the
request, set the user agent, for mutating methods set the form content type
and parse the body (returning a parse error unchanged), then sign.  The
`params` argument is accepted and ignored, exactly as in the source. -/
def primaryDo (key secret nonce ts host method q : GoStr) (params : Values)
    (body : GoStr) : DoResult :=
  if q = [] then .panics
  else
    let q1 := normPath q
    let u := primaryUrl host q1
    let h1 : Header := hset [] uaKey uaVal
    let h2 := if mutatingB method then hset h1 ctKey ctFormVal else h1
    let pv : Except UrlError Values :=
      if mutatingB method then parseQueryE body else .ok []
    match pv with
    | .error e => .fails e
    | .ok v =>
      let base := sigBaseString method u (signingParams key nonce ts u v)
      .built { method := method, url := u,
               header := hset h2 authKey (authValue key secret base),
               body := .str body, postForm := [], form := [],
               multipartForm := none, sigBase := some base }

/-- The raw-construction variant (`src/unnamed/part_000`, `Do`), up to
dispatch: the `http.Request` literal with the encoded query parameters in
`RawQuery`, the path stored verbatim in `Opaque` (no normalization), the
user agent header, and a signature over `nil` form values. -/
def part000Do (key secret nonce ts host method q : GoStr) (params : Values)
    (body : GoStr) : HttpReq :=
  let u : UrlT := { scheme := strBytes "https", host := host, opq := q,
                    rawQuery := valuesEncode params }
  let base := sigBaseString method u (signingParams key nonce ts u [])
  { method := method, url := u,
    header := hset (hset [] uaKey uaVal000) authKey (authValue key secret base),
    body := .str body, postForm := [], form := [],
    multipartForm := none, sigBase := some base }

/-- The wrapper variant's `Request` value: the embedded `http.Request` plus
the `Query` and `Attachment` fields. -/
structure Wrap001 where
  req : HttpReq
  query : GoStr
  attachment : GoStr
deriving DecidableEq

/-- Outcome of the wrapper variant's `NewRequest`: a panic on the empty
path, or the built and signed request. -/
inductive NRes
  | panics
  | built (r : Wrap001)
deriving DecidableEq

/-- The wrapper variant (`src/unnamed/part_001`, `NewRequest`): normalize
the path (panic when empty), append `?` and the encoded query parameters to
the target URL when the map is nonempty, store the normalized path in
`Opaque`, set the user agent, and sign with `r.PostForm`, which is still
`nil` at this point (the `postParams` argument is accepted and never used,
exactly as in the source). -/
def newRequest001 (key secret nonce ts host method q : GoStr)
    (queryParams postParams : Values) : NRes :=
  if q = [] then .panics
  else
    let q1 := normPath q
    let rq := if queryParams.length > 0 then valuesEncode queryParams else []
    let u : UrlT := { scheme := strBytes "https", host := host, opq := q1,
                      rawQuery := rq }
    let base := sigBaseString method u (signingParams key nonce ts u [])
    .built { req := { method := method, url := u,
                      header := hset (hset [] uaKey uaVal) authKey
                                  (authValue key secret base),
                      body := .emptyB, postForm := [], form := [],
                      multipartForm := none, sigBase := some base },
             query := q1, attachment := [] }

/-- Go errors surfaced by the client. -/
inductive GoErr
  | urlEsc (e : UrlError)
  | fileOpen (name : GoStr)
  | transport (msg : GoStr)
  | ioRead (msg : GoStr)
deriving DecidableEq

/-- `filepath.Base` (unix separators): `.` for the empty path, trailing
slashes dropped, everything up to the last slash dropped, `/` when nothing
remains. -/
def fileBase (p : GoStr) : GoStr :=
  if p = [] then [46]
  else
    let p1 := (p.reverse.dropWhile (· = 47)).reverse
    if p1 = [] then [47]
    else (p1.reverse.takeWhile (· ≠ 47)).reverse

/-- `Request.ParseMultipartForm(defaultMaxMemory)` as called by
`AttachFile`, with its error ignored: at this point the Content-Type header
is not yet multipart, so the multipart parse fails and `MultipartForm` stays
unchanged; the embedded `ParseForm` populates `Form` when it is still nil
(from the already-populated `PostForm`), and leaves a non-nil `PostForm`
alone. -/
def parseMultipartStep (r : HttpReq) : HttpReq :=
  if r.form = [] then { r with form := r.postForm } else r

/-- `AttachFile` (`src/unnamed/part_001`): open the file (returning the open
error), build a multipart body holding the file part (field name as given,
file name `filepath.Base`) followed by every existing `PostForm` field,
replace the request body, call `ParseMultipartForm` (error ignored), and set
the Content-Type header to the writer's boundary type.  The file system is
an explicit map from file name to contents (`none` = unreadable), and the
writer's random boundary is an explicit input.  The `io.Copy` error is
overwritten by later assignments in the source, so it cannot surface. -/
def attachFile (fs : GoStr → Option GoStr) (r : HttpReq)
    (fieldName fileName boundary : GoStr) : Except GoErr HttpReq :=
  match fs fileName with
  | none => .error (.fileOpen fileName)
  | some content =>
    let parts := Mpart.fileField fieldName (fileBase fileName) content
                 :: (flattenV r.postForm).map fun p => Mpart.formField p.1 p.2
    let r1 := { r with body := BodyT.multipart boundary parts }
    let r2 := parseMultipartStep r1
    .ok { r2 with header := hset r2.header ctKey (multipartCT boundary) }

/-- The form-field pairs of a multipart part list (what re-parsing the body
yields as ordinary fields). -/
def formPairsOf (parts : List Mpart) : List (GoStr × GoStr) :=
  parts.filterMap fun p =>
    match p with
    | .formField k v => some (k, v)
    | .fileField _ _ _ => none

/-- The file fields (field name, file name) of a multipart part list. -/
def filePairsOf (parts : List Mpart) : List (GoStr × GoStr) :=
  parts.filterMap fun p =>
    match p with
    | .formField _ _ => none
    | .fileField f n _ => some (f, n)

/-- An `http.Response` as `DoJSON` observes it: the bytes `ioutil.ReadAll`
returns and the read error, if the body cannot be fully read. -/
structure HttpResponse where
  bodyBytes : GoStr
  readErr : Option GoErr
deriving DecidableEq

/-- `DoJSON` (identical in all three variants), as a function of the
outcome of the underlying `Do` dispatch: a failed dispatch propagates the
error unchanged with a nil byte slice; a successful one returns whatever
`ioutil.ReadAll` yields, with its error. -/
def doJSON (r : Except GoErr HttpResponse) : Option GoStr × Option GoErr :=
  match r with
  | .error e => (none, some e)
  | .ok resp => (some resp.bodyBytes, resp.readErr)

/-- The Authorization header of a built primary-variant request. -/
def DoResult.authOf : DoResult → Option GoStr
  | .built r => hget r.header authKey
  | _ => none

/-- The URL of a built primary-variant request. -/
def DoResult.urlOf : DoResult → Option UrlT
  | .built r => some r.url
  | _ => none

/-- The request the primary variant's `Do` builds for a mutating method once
the body parsed to `v` (the closed form of the non-error branch of
`primaryDo`). -/
def primaryBuilt (key secret nonce ts host method q body : GoStr) (v : Values) : HttpReq :=
  let u := primaryUrl host (normPath q)
  let base := sigBaseString method u (signingParams key nonce ts u v)
  { method := method, url := u,
    header := hset (hset (hset [] uaKey uaVal) ctKey ctFormVal) authKey
                (authValue key secret base),
    body := .str body, postForm := [], form := [],
    multipartForm := none, sigBase := some base }

/-- The request the wrapper variant's `NewRequest` builds once the path is
known to be non-empty (the closed form of the non-panic branch of
`newRequest001`). -/
def wrapBuilt (key secret nonce ts host method q : GoStr) (queryParams : Values) : Wrap001 :=
  let q1 := normPath q
  let rq := if queryParams.length > 0 then valuesEncode queryParams else []
  let u : UrlT := { scheme := strBytes "https", host := host, opq := q1, rawQuery := rq }
  let base := sigBaseString method u (signingParams key nonce ts u [])
  { req := { method := method, url := u,
             header := hset (hset [] uaKey uaVal) authKey (authValue key secret base),
             body := .emptyB, postForm := [], form := [],
             multipartForm := none, sigBase := some base },
    query := q1, attachment := [] }

/-- Left inverse of `hexDigit`, a proof tool. -/
def unhexDigit (m : Nat) : Nat := if m < 58 then m - 48 else m - 55

/-- Left inverse of percent-encoding, a proof tool used to show `encStr` is
injective. -/
def decPE : GoStr → Option GoStr
  | [] => some []
  | c :: rest =>
    if c = 37 then
      match rest with
      | h :: l :: rest2 =>
        (decPE rest2).map fun r => (16 * unhexDigit h + unhexDigit l) :: r
      | _ => none
    else (decPE rest).map fun r => c :: r

/-- Sample concrete inputs used by witnesses and counterexamples. -/
def sk : GoStr := strBytes "k"

/-- Sample secret. -/
def ss : GoStr := strBytes "s"

/-- Sample nonce. -/
def sn : GoStr := strBytes "n"

/-- Sample timestamp. -/
def st : GoStr := strBytes "t"

/-- Sample API host. -/
def sh : GoStr := strBytes "api.context.io"

/-! ### Helper lemmas -/

theorem hget_hset_self (h : Header) (k v : GoStr) : hget (hset h k v) k = some v := by
  induction h with
  | nil => simp [hset, hget]
  | cons p t ih =>
    by_cases hk : k = p.1
    · simp [hset, hget, hk]
    · simp [hset, hget, hk, ih]

theorem hget_hset_ne (h : Header) {k k' : GoStr} (v : GoStr) (hne : k' ≠ k) :
    hget (hset h k v) k' = hget h k' := by
  induction h with
  | nil => simp [hset, hget, hne]
  | cons p t ih =>
    by_cases hk : k = p.1
    · subst hk; simp [hset, hget, hne]
    · by_cases hk' : k' = p.1
      · simp [hset, hget, hk, hk']
      · simp [hset, hget, hk, hk', ih]

theorem normPath_slash (q : GoStr) : normPath (47 :: q) = 47 :: q := by
  simp [normPath]

theorem normPath_noSlash {q : GoStr} (hq : q ≠ []) (hh : q.head? ≠ some 47) :
    normPath q = 47 :: q := by
  cases q with
  | nil => exact absurd rfl hq
  | cons c t =>
    have hc : c ≠ 47 := by simpa using hh
    simp [normPath, hc]

theorem unhexDigit_hexDigit (n : Nat) : unhexDigit (hexDigit n) = n := by
  simp only [hexDigit, unhexDigit]
  split <;> split <;> omega

theorem isUnreserved_ne {c : Nat} (h : isUnreserved c = true) :
    c ≠ 37 ∧ c ≠ 38 ∧ c ≠ 61 := by
  refine ⟨?_, ?_, ?_⟩ <;> rintro rfl <;> revert h <;> decide

theorem hexDigit_ne (n : Nat) : hexDigit n ≠ 38 ∧ hexDigit n ≠ 61 := by
  simp only [hexDigit]
  split <;> omega

theorem decPE_cons_ne {c : Nat} (hc : c ≠ 37) (r : GoStr) :
    decPE (c :: r) = (decPE r).map fun s => c :: s := by
  match r with
  | [] => simp [decPE, hc]
  | [h] => simp [decPE, hc]
  | h :: l :: rest2 => simp [decPE, hc]

theorem decPE_pct (h l : Nat) (r : GoStr) :
    decPE (37 :: h :: l :: r) =
      (decPE r).map fun s => (16 * unhexDigit h + unhexDigit l) :: s := by
  simp [decPE]

theorem decPE_encChar (c : Nat) (r : GoStr) :
    decPE (encChar c ++ r) = (decPE r).map fun s => c :: s := by
  by_cases hu : isUnreserved c = true
  · have hc := (isUnreserved_ne hu).1
    simp [encChar, hu, decPE_cons_ne hc]
  · have : encChar c = [37, hexDigit (c / 16), hexDigit (c % 16)] := by
      simp [encChar, hu]
    rw [this]
    have h16 : 16 * unhexDigit (hexDigit (c / 16)) + unhexDigit (hexDigit (c % 16)) = c := by
      rw [unhexDigit_hexDigit, unhexDigit_hexDigit]
      omega
    simpa [h16] using decPE_pct (hexDigit (c / 16)) (hexDigit (c % 16)) r

theorem decPE_encStr (s : GoStr) : ∀ r, decPE (encStr s ++ r) = (decPE r).map fun t => s ++ t := by
  induction s with
  | nil => intro r; simp [encStr]
  | cons c cs ih =>
    intro r
    have hsplit : encStr (c :: cs) ++ r = encChar c ++ (encStr cs ++ r) := by
      simp [encStr]
    rw [hsplit, decPE_encChar, ih, Option.map_map]
    rfl

theorem encStr_inj : Function.Injective encStr := by
  intro a b h
  have h0 : decPE [] = some [] := rfl
  have ha : decPE (encStr a) = some a := by simpa [h0] using decPE_encStr a []
  have hb : decPE (encStr b) = some b := by simpa [h0] using decPE_encStr b []
  rw [h, hb] at ha
  exact (Option.some_inj.mp ha).symm

theorem mem_encChar_ne {x c : Nat} (hx : x ∈ encChar c) : x ≠ 38 ∧ x ≠ 61 := by
  unfold encChar at hx
  split at hx
  · next hu =>
    simp at hx
    subst hx
    exact ⟨(isUnreserved_ne hu).2.1, (isUnreserved_ne hu).2.2⟩
  · simp at hx
    rcases hx with rfl | rfl | rfl
    · omega
    · exact hexDigit_ne _
    · exact hexDigit_ne _

theorem mem_encStr_ne {x : Nat} {s : GoStr} (hx : x ∈ encStr s) : x ≠ 38 ∧ x ≠ 61 := by
  simp only [encStr, List.mem_flatMap] at hx
  obtain ⟨c, -, hc⟩ := hx
  exact mem_encChar_ne hc

theorem encPair_ne_nil (p : GoStr × GoStr) : encPair p ≠ [] := by
  simp [encPair]

theorem mem_encPair_ne {x : Nat} {p : GoStr × GoStr} (hx : x ∈ encPair p) : x ≠ 38 := by
  simp only [encPair, List.mem_append, List.mem_cons] at hx
  rcases hx with h | rfl | h
  · exact (mem_encStr_ne h).1
  · omega
  · exact (mem_encStr_ne h).1

theorem append_sep_inj (sep : Nat) : ∀ (a1 a2 b1 b2 : GoStr),
    sep ∉ a1 → sep ∉ a2 → a1 ++ sep :: b1 = a2 ++ sep :: b2 → a1 = a2 ∧ b1 = b2 := by
  intro a1
  induction a1 with
  | nil =>
    intro a2 b1 b2 _ h2 h
    cases a2 with
    | nil => simpa using h
    | cons c t =>
      exfalso
      simp only [List.nil_append, List.cons_append, List.cons.injEq] at h
      obtain ⟨rfl, -⟩ := h
      exact h2 (by simp)
  | cons c t ih =>
    intro a2 b1 b2 h1 h2 h
    cases a2 with
    | nil =>
      exfalso
      simp only [List.nil_append, List.cons_append, List.cons.injEq] at h
      obtain ⟨rfl, -⟩ := h
      exact h1 (by simp)
    | cons d t2 =>
      simp only [List.cons_append, List.cons.injEq] at h
      obtain ⟨rfl, h'⟩ := h
      obtain ⟨ht, hb⟩ := ih t2 b1 b2 (fun hm => h1 (List.mem_cons_of_mem _ hm))
        (fun hm => h2 (List.mem_cons_of_mem _ hm)) h'
      exact ⟨by rw [ht], hb⟩

theorem encPair_inj : Function.Injective encPair := by
  intro p q h
  obtain ⟨h1, h2⟩ := append_sep_inj 61 _ _ _ _
    (fun hx => (mem_encStr_ne hx).2 rfl) (fun hx => (mem_encStr_ne hx).2 rfl) h
  exact Prod.ext (encStr_inj h1) (encStr_inj h2)

theorem joinAmp_cons_ne_nil {x : GoStr} {xs : List GoStr} (hx : x ≠ []) :
    joinAmp (x :: xs) ≠ [] := by
  cases xs with
  | nil => simpa [joinAmp] using hx
  | cons y t => simp [joinAmp]

theorem joinAmp_inj : ∀ xs ys : List GoStr,
    (∀ x ∈ xs, x ≠ [] ∧ 38 ∉ x) → (∀ y ∈ ys, y ≠ [] ∧ 38 ∉ y) →
    joinAmp xs = joinAmp ys → xs = ys := by
  intro xs
  induction xs with
  | nil =>
    intro ys _ hy h
    cases ys with
    | nil => rfl
    | cons y yt =>
      exact absurd h.symm (joinAmp_cons_ne_nil (hy y (by simp)).1)
  | cons x xt ih =>
    intro ys hx hy h
    cases ys with
    | nil => exact absurd h (joinAmp_cons_ne_nil (hx x (by simp)).1)
    | cons y yt =>
      cases xt with
      | nil =>
        cases yt with
        | nil =>
          have : x = y := h
          rw [this]
        | cons y2 t2 =>
          exfalso
          have hxy : x = y ++ 38 :: joinAmp (y2 :: t2) := h
          have h38 : (38 : Nat) ∈ x := by rw [hxy]; simp
          exact (hx x (by simp)).2 h38
      | cons x2 t1 =>
        cases yt with
        | nil =>
          exfalso
          have hxy : x ++ 38 :: joinAmp (x2 :: t1) = y := h
          have h38 : (38 : Nat) ∈ y := by rw [← hxy]; simp
          exact (hy y (by simp)).2 h38
        | cons y2 t2 =>
          have h' : x ++ 38 :: joinAmp (x2 :: t1) = y ++ 38 :: joinAmp (y2 :: t2) := h
          obtain ⟨hxy, hjj⟩ := append_sep_inj 38 _ _ _ _ (hx x (by simp)).2 (hy y (by simp)).2 h'
          have htl := ih (y2 :: t2) (fun a ha => hx a (List.mem_cons_of_mem _ ha))
            (fun a ha => hy a (List.mem_cons_of_mem _ ha)) hjj
          rw [hxy, htl]

theorem sortStrs_perm (l : List GoStr) : List.Perm (sortStrs l) l :=
  List.perm_insertionSort _ l

theorem sorted_encPairs_cond (ps : List (GoStr × GoStr)) :
    ∀ x ∈ sortStrs (ps.map encPair), x ≠ [] ∧ 38 ∉ x := by
  intro x hx
  have hx' : x ∈ ps.map encPair := ((sortStrs_perm _).mem_iff).mp hx
  simp only [List.mem_map] at hx'
  obtain ⟨p, -, rfl⟩ := hx'
  exact ⟨encPair_ne_nil p, fun hm => mem_encPair_ne hm rfl⟩

theorem paramString_eq_multiset {ps1 ps2 : List (GoStr × GoStr)}
    (h : paramString ps1 = paramString ps2) :
    (ps1 : Multiset (GoStr × GoStr)) = (ps2 : Multiset (GoStr × GoStr)) := by
  unfold paramString at h
  have h' := joinAmp_inj _ _ (sorted_encPairs_cond ps1) (sorted_encPairs_cond ps2) h
  have hperm : List.Perm (ps1.map encPair) (ps2.map encPair) :=
    ((sortStrs_perm _).symm.trans (h' ▸ sortStrs_perm _))
  have hm : ((ps1.map encPair : List GoStr) : Multiset GoStr) = (ps2.map encPair : List GoStr) :=
    Multiset.coe_eq_coe.mpr hperm
  rw [← Multiset.map_coe, ← Multiset.map_coe] at hm
  exact Multiset.map_injective encPair_inj hm

theorem sigBaseString_inj (method : GoStr) (u : UrlT) {ps1 ps2 : List (GoStr × GoStr)}
    (h : sigBaseString method u ps1 = sigBaseString method u ps2) :
    (ps1 : Multiset (GoStr × GoStr)) = (ps2 : Multiset (GoStr × GoStr)) := by
  unfold sigBaseString at h
  have h1 := List.append_cancel_left h
  simp only [List.cons.injEq, true_and] at h1
  have h2 := List.append_cancel_left h1
  simp only [List.cons.injEq, true_and] at h2
  exact paramString_eq_multiset (encStr_inj h2)

theorem signingParams_multiset_inj (key nonce ts : GoStr) (u : UrlT) {v1 v2 : Values}
    (h : ((signingParams key nonce ts u v1 : List (GoStr × GoStr)) : Multiset (GoStr × GoStr)) =
         (signingParams key nonce ts u v2 : List (GoStr × GoStr))) :
    ((flattenV v1 : List (GoStr × GoStr)) : Multiset (GoStr × GoStr)) =
      (flattenV v2 : List (GoStr × GoStr)) := by
  unfold signingParams at h
  rw [← Multiset.coe_add, ← Multiset.coe_add] at h
  exact add_left_cancel h

theorem primaryDo_eq (key secret nonce ts host method q : GoStr) (params : Values)
    (body : GoStr) (hq : q ≠ []) (hm : mutatingB method = true) :
    primaryDo key secret nonce ts host method q params body =
      match parseQueryE body with
      | .error e => .fails e
      | .ok v => .built (primaryBuilt key secret nonce ts host method q body v) := by
  unfold primaryDo primaryBuilt
  rw [if_neg hq]
  simp only [hm, if_true]

theorem parseMultipartStep_body (r : HttpReq) : (parseMultipartStep r).body = r.body := by
  unfold parseMultipartStep
  split <;> rfl

theorem newRequest001_eq (key secret nonce ts host method q : GoStr)
    (qp pp : Values) (hq : q ≠ []) :
    newRequest001 key secret nonce ts host method q qp pp =
      .built (wrapBuilt key secret nonce ts host method q qp) := by
  unfold newRequest001 wrapBuilt
  rw [if_neg hq]

theorem urlBaseStr_https (host p rq : GoStr) :
    urlBaseStr { scheme := strBytes "https", host := host, opq := p, rawQuery := rq } =
      strBytes "https://" ++ host ++ p := by
  unfold urlBaseStr
  rw [show strBytes "https" ++ strBytes "://" = strBytes "https://" from by decide]

theorem formPairsOf_cons_file (a b c : GoStr) (l : List Mpart) :
    formPairsOf (.fileField a b c :: l) = formPairsOf l := by
  simp [formPairsOf, List.filterMap_cons]

theorem filePairsOf_cons_file (a b c : GoStr) (l : List Mpart) :
    filePairsOf (.fileField a b c :: l) = (a, b) :: filePairsOf l := by
  simp [filePairsOf, List.filterMap_cons]

theorem formPairsOf_map (l : List (GoStr × GoStr)) :
    formPairsOf (l.map fun p => Mpart.formField p.1 p.2) = l := by
  induction l with
  | nil => rfl
  | cons p t ih =>
    simp only [formPairsOf, List.map_cons, List.filterMap_cons] at ih ⊢
    simpa using ih

theorem filePairsOf_map (l : List (GoStr × GoStr)) :
    filePairsOf (l.map fun p => Mpart.formField p.1 p.2) = [] := by
  induction l with
  | nil => rfl
  | cons p t ih =>
    simp only [filePairsOf, List.map_cons, List.filterMap_cons] at ih ⊢
    simp [ih]

theorem attachFile_eq (fs : GoStr → Option GoStr) (r : HttpReq)
    (fieldName fileName boundary content : GoStr) (hf : fs fileName = some content) :
    attachFile fs r fieldName fileName boundary =
      .ok { method := r.method, url := r.url,
            header := hset r.header ctKey (multipartCT boundary),
            body := .multipart boundary
              (Mpart.fileField fieldName (fileBase fileName) content
                :: (flattenV r.postForm).map fun p => Mpart.formField p.1 p.2),
            postForm := r.postForm,
            form := if r.form = [] then r.postForm else r.form,
            multipartForm := r.multipartForm, sigBase := r.sigBase } := by
  simp only [attachFile, hf, parseMultipartStep]
  split <;> rfl

/-! ### Claim theorems -/

/-- C1, counterexample: as stated the claim is false even in the primary
variant.  The well-formed bodies `a=1&b=2` and `b=2&a=1` differ, yet they
parse to the same `url.Values`, so for a fixed method, path, query, nonce
and timestamp they yield the same Authorization header. -/
theorem primary_reordered_bodies_same_auth :
    (primaryDo sk ss sn st sh (strBytes "POST") (strBytes "/t") []
        (strBytes "a=1&b=2")).authOf =
      (primaryDo sk ss sn st sh (strBytes "POST") (strBytes "/t") []
        (strBytes "b=2&a=1")).authOf ∧
    (primaryDo sk ss sn st sh (strBytes "POST") (strBytes "/t") []
        (strBytes "a=1&b=2")).authOf ≠ none ∧
    strBytes "a=1&b=2" ≠ strBytes "b=2&a=1" := by
  refine ⟨by decide, by decide, by decide⟩

/-- C1 (amended): for the primary variant's `Do` with a mutating method the
body is parsed as form data and the parsed parameters enter the signature:
two well-formed bodies whose parsed parameter multisets differ produce
different signature base strings (hence different Authorization headers, up
to collisions of the MAC, which is not modelled).  The raw-construction and
wrapper variants sign with nil form values, so the claim is restricted to
the primary variant. -/
theorem primary_body_params_affect_signature
    (key secret nonce ts host method q : GoStr) (params : Values) (b1 b2 : GoStr)
    (v1 v2 : Values) (hm : mutatingB method = true) (hq : q ≠ [])
    (h1 : parseQueryE b1 = .ok v1) (h2 : parseQueryE b2 = .ok v2)
    (hne : ((flattenV v1 : List (GoStr × GoStr)) : Multiset (GoStr × GoStr)) ≠
           ((flattenV v2 : List (GoStr × GoStr)) : Multiset (GoStr × GoStr))) :
    ∃ r1 r2,
      primaryDo key secret nonce ts host method q params b1 = .built r1 ∧
      primaryDo key secret nonce ts host method q params b2 = .built r2 ∧
      r1.sigBase ≠ r2.sigBase := by
  refine ⟨primaryBuilt key secret nonce ts host method q b1 v1,
          primaryBuilt key secret nonce ts host method q b2 v2, ?_, ?_, ?_⟩
  · rw [primaryDo_eq key secret nonce ts host method q params b1 hq hm, h1]
  · rw [primaryDo_eq key secret nonce ts host method q params b2 hq hm, h2]
  · simp only [primaryBuilt]
    intro hco
    simp only [Option.some.injEq] at hco
    exact hne (signingParams_multiset_inj key nonce ts _ (sigBaseString_inj method _ hco))

/-- Witness for C1 at concrete inputs: bodies `a=1` and `a=2`. -/
theorem primary_body_params_affect_signature_witness :
    ∃ r1 r2,
      primaryDo sk ss sn st sh (strBytes "POST") (strBytes "/t") [] (strBytes "a=1") = .built r1 ∧
      primaryDo sk ss sn st sh (strBytes "POST") (strBytes "/t") [] (strBytes "a=2") = .built r2 ∧
      r1.sigBase ≠ r2.sigBase :=
  primary_body_params_affect_signature sk ss sn st sh (strBytes "POST") (strBytes "/t") []
    (strBytes "a=1") (strBytes "a=2")
    [(strBytes "a", [strBytes "1"])] [(strBytes "a", [strBytes "2"])]
    (by decide) (by decide) (by decide) (by decide) (by decide)

/-- C2, counterexample: the raw-construction variant performs no path
normalization, so `x` and `/x` build different requests there. -/
theorem part000_no_path_normalization :
    part000Do sk ss sn st sh (strBytes "GET") (strBytes "x") [] [] ≠
      part000Do sk ss sn st sh (strBytes "GET") (strBytes "/x") [] [] := by
  decide

/-- C2 (amended): in the primary variant's `Do` and the wrapper variant's
`NewRequest` (the two variants with the normalization step), a non-empty
path without a leading slash and the same path with one produce identical
results; the raw-construction variant has no such step. -/
theorem leading_slash_same_request
    (key secret nonce ts host method q : GoStr) (params qp pp : Values) (body : GoStr)
    (hq : q ≠ []) (hh : q.head? ≠ some 47) :
    primaryDo key secret nonce ts host method (47 :: q) params body =
      primaryDo key secret nonce ts host method q params body ∧
    newRequest001 key secret nonce ts host method (47 :: q) qp pp =
      newRequest001 key secret nonce ts host method q qp pp := by
  constructor
  · unfold primaryDo
    rw [if_neg (List.cons_ne_nil 47 q), if_neg hq, normPath_slash, normPath_noSlash hq hh]
  · unfold newRequest001
    rw [if_neg (List.cons_ne_nil 47 q), if_neg hq, normPath_slash, normPath_noSlash hq hh]

/-- Witness for C2 at the concrete path `t`. -/
theorem leading_slash_same_request_witness :
    primaryDo sk ss sn st sh (strBytes "GET") (47 :: strBytes "t") [] (strBytes "") =
      primaryDo sk ss sn st sh (strBytes "GET") (strBytes "t") [] (strBytes "") ∧
    newRequest001 sk ss sn st sh (strBytes "GET") (47 :: strBytes "t") [] [] =
      newRequest001 sk ss sn st sh (strBytes "GET") (strBytes "t") [] [] :=
  leading_slash_same_request sk ss sn st sh (strBytes "GET") (strBytes "t") [] [] []
    (strBytes "") (by decide) (by decide)

/-- C3, counterexample: the primary variant's `Do` never uses its `params`
argument, so a non-empty query map is not carried in the built URL. -/
theorem primary_ignores_query_params :
    (primaryDo sk ss sn st sh (strBytes "GET") (strBytes "/t")
        [(strBytes "a", [strBytes "1"])] []).urlOf =
      some (primaryUrl sh (strBytes "/t")) ∧
    (primaryUrl sh (strBytes "/t")).rawQuery = [] ∧
    valuesEncode [(strBytes "a", [strBytes "1"])] ≠ [] := by
  refine ⟨by decide, rfl, by decide⟩

/-- C3 (amended): the raw-construction variant's `Do` and the wrapper
variant's `NewRequest` carry the encoded query parameters in the built
URL's query string; the primary variant's `Do` ignores its `params`
argument entirely (its result does not depend on it). -/
theorem query_params_in_url
    (key secret nonce ts host method q : GoStr) (params qp pp : Values) (body : GoStr)
    (hq : q ≠ []) (hqp : qp ≠ []) :
    (part000Do key secret nonce ts host method q params body).url.rawQuery =
      valuesEncode params ∧
    (∃ w, newRequest001 key secret nonce ts host method q qp pp = .built w ∧
      w.req.url.rawQuery = valuesEncode qp) ∧
    (∀ params2, primaryDo key secret nonce ts host method q params body =
      primaryDo key secret nonce ts host method q params2 body) := by
  refine ⟨rfl, ⟨wrapBuilt key secret nonce ts host method q qp,
    newRequest001_eq key secret nonce ts host method q qp pp hq, ?_⟩, fun _ => rfl⟩
  show (if qp.length > 0 then valuesEncode qp else []) = valuesEncode qp
  rw [if_pos (by simpa [List.length_pos] using hqp)]

/-- Witness for C3 at concrete inputs. -/
theorem query_params_in_url_witness :
    (part000Do sk ss sn st sh (strBytes "GET") (strBytes "/t")
        [(strBytes "a", [strBytes "1"])] []).url.rawQuery =
      valuesEncode [(strBytes "a", [strBytes "1"])] ∧
    (∃ w, newRequest001 sk ss sn st sh (strBytes "GET") (strBytes "/t")
        [(strBytes "a", [strBytes "1"])] [] = .built w ∧
      w.req.url.rawQuery = valuesEncode [(strBytes "a", [strBytes "1"])]) ∧
    (∀ params2, primaryDo sk ss sn st sh (strBytes "GET") (strBytes "/t")
        [(strBytes "a", [strBytes "1"])] [] =
      primaryDo sk ss sn st sh (strBytes "GET") (strBytes "/t") params2 []) :=
  query_params_in_url sk ss sn st sh (strBytes "GET") (strBytes "/t")
    [(strBytes "a", [strBytes "1"])] [(strBytes "a", [strBytes "1"])] [] []
    (by decide) (by decide)

/-- C4: for a mutating method and a body that is not well-formed form data,
the primary variant's `Do` returns the parse error unchanged; the result is
an error return, so no request is dispatched and no Authorization header is
computed. -/
theorem primary_mutating_parse_error_propagated
    (key secret nonce ts host method q : GoStr) (params : Values) (body : GoStr)
    (e : UrlError) (hm : mutatingB method = true) (hq : q ≠ [])
    (he : parseQueryE body = .error e) :
    primaryDo key secret nonce ts host method q params body = .fails e := by
  rw [primaryDo_eq key secret nonce ts host method q params body hq hm, he]

/-- Witness for C4: the malformed body `%zz`. -/
theorem primary_mutating_parse_error_propagated_witness :
    primaryDo sk ss sn st sh (strBytes "POST") (strBytes "/t") [] (strBytes "%zz") =
      .fails (.escapeError (strBytes "%zz")) :=
  primary_mutating_parse_error_propagated sk ss sn st sh (strBytes "POST") (strBytes "/t")
    [] (strBytes "%zz") (.escapeError (strBytes "%zz")) (by decide) (by decide) (by decide)

/-- C5: a successful `AttachFile` produces a multipart body whose form
fields are exactly the request's pre-existing `PostForm` fields and whose
single file field is named by `fieldName` and carries the file's base name:
no pre-existing field is lost. -/
theorem attachFile_preserves_fields (fs : GoStr → Option GoStr) (r : HttpReq)
    (fieldName fileName boundary content : GoStr) (hf : fs fileName = some content) :
    ∃ r' parts, attachFile fs r fieldName fileName boundary = .ok r' ∧
      r'.body = .multipart boundary parts ∧
      formPairsOf parts = flattenV r.postForm ∧
      filePairsOf parts = [(fieldName, fileBase fileName)] := by
  refine ⟨_, _, attachFile_eq fs r fieldName fileName boundary content hf, rfl, ?_, ?_⟩
  · rw [formPairsOf_cons_file, formPairsOf_map]
  · rw [filePairsOf_cons_file, filePairsOf_map]

/-- Witness for C5 at concrete inputs. -/
theorem attachFile_preserves_fields_witness :
    ∃ r' parts,
      attachFile (fun f => if f = strBytes "/d/a.txt" then some (strBytes "hi") else none)
        (part000Do sk ss sn st sh (strBytes "POST") (strBytes "/t") [] [])
        (strBytes "file") (strBytes "/d/a.txt") (strBytes "BB") = .ok r' ∧
      r'.body = .multipart (strBytes "BB") parts ∧
      formPairsOf parts =
        flattenV (part000Do sk ss sn st sh (strBytes "POST") (strBytes "/t") [] []).postForm ∧
      filePairsOf parts = [(strBytes "file", fileBase (strBytes "/d/a.txt"))] :=
  attachFile_preserves_fields
    (fun f => if f = strBytes "/d/a.txt" then some (strBytes "hi") else none)
    (part000Do sk ss sn st sh (strBytes "POST") (strBytes "/t") [] [])
    (strBytes "file") (strBytes "/d/a.txt") (strBytes "BB") (strBytes "hi") (by decide)

/-- C6: a successful `AttachFile` changes only the body, the Content-Type
header and the derived form fields: the method, URL, `PostForm`, the
signature bookkeeping and every other header — in particular Authorization —
are unchanged, and no re-signing occurs. -/
theorem attachFile_frame (fs : GoStr → Option GoStr) (r : HttpReq)
    (fieldName fileName boundary content : GoStr) (hf : fs fileName = some content) :
    ∃ r', attachFile fs r fieldName fileName boundary = .ok r' ∧
      r'.method = r.method ∧ r'.url = r.url ∧ r'.postForm = r.postForm ∧
      r'.sigBase = r.sigBase ∧
      hget r'.header authKey = hget r.header authKey ∧
      (∀ k, k ≠ ctKey → hget r'.header k = hget r.header k) ∧
      hget r'.header ctKey = some (multipartCT boundary) := by
  refine ⟨_, attachFile_eq fs r fieldName fileName boundary content hf,
    rfl, rfl, rfl, rfl, ?_, ?_, ?_⟩
  · exact hget_hset_ne r.header (multipartCT boundary) (by decide)
  · intro k hk
    exact hget_hset_ne r.header (multipartCT boundary) hk
  · exact hget_hset_self r.header ctKey (multipartCT boundary)

/-- Witness for C6 at concrete inputs. -/
theorem attachFile_frame_witness :
    ∃ r', attachFile (fun f => if f = strBytes "/d/a.txt" then some (strBytes "hi") else none)
        (part000Do sk ss sn st sh (strBytes "POST") (strBytes "/t") [] [])
        (strBytes "file") (strBytes "/d/a.txt") (strBytes "BB") = .ok r' ∧
      r'.method = (part000Do sk ss sn st sh (strBytes "POST") (strBytes "/t") [] []).method ∧
      r'.url = (part000Do sk ss sn st sh (strBytes "POST") (strBytes "/t") [] []).url ∧
      r'.postForm = (part000Do sk ss sn st sh (strBytes "POST") (strBytes "/t") [] []).postForm ∧
      r'.sigBase = (part000Do sk ss sn st sh (strBytes "POST") (strBytes "/t") [] []).sigBase ∧
      hget r'.header authKey =
        hget (part000Do sk ss sn st sh (strBytes "POST") (strBytes "/t") [] []).header authKey ∧
      (∀ k, k ≠ ctKey → hget r'.header k =
        hget (part000Do sk ss sn st sh (strBytes "POST") (strBytes "/t") [] []).header k) ∧
      hget r'.header ctKey = some (multipartCT (strBytes "BB")) :=
  attachFile_frame (fun f => if f = strBytes "/d/a.txt" then some (strBytes "hi") else none)
    (part000Do sk ss sn st sh (strBytes "POST") (strBytes "/t") [] [])
    (strBytes "file") (strBytes "/d/a.txt") (strBytes "BB") (strBytes "hi") (by decide)

/-- C7, counterexample: the raw-construction variant does not normalize, so
for the path `x` the stored unescaped component is `x`, not the normalized
path `/x`. -/
theorem part000_opaque_not_normalized :
    (part000Do sk ss sn st sh (strBytes "GET") (strBytes "x") [] []).url.opq ≠
      normPath (strBytes "x") := by
  decide

/-- C7 (amended): every built request's URL is `https://{host}{path}` with
the path stored verbatim in the unescaped `Opaque` component; the primary
and wrapper variants store the normalized path, while the raw-construction
variant, which has no normalization step, stores the path exactly as
given. -/
theorem url_opaque_construction
    (key secret nonce ts host method q : GoStr) (params qp pp : Values) (body : GoStr) :
    (∀ r, primaryDo key secret nonce ts host method q params body = .built r →
       r.url = primaryUrl host (normPath q) ∧
       urlBaseStr r.url = strBytes "https://" ++ host ++ normPath q) ∧
    (∀ w, newRequest001 key secret nonce ts host method q qp pp = .built w →
       w.req.url.scheme = strBytes "https" ∧ w.req.url.host = host ∧
       w.req.url.opq = normPath q ∧
       urlBaseStr w.req.url = strBytes "https://" ++ host ++ normPath q) ∧
    ((part000Do key secret nonce ts host method q params body).url =
       { scheme := strBytes "https", host := host, opq := q,
         rawQuery := valuesEncode params } ∧
     urlBaseStr (part000Do key secret nonce ts host method q params body).url =
       strBytes "https://" ++ host ++ q) := by
  refine ⟨?_, ?_, rfl, urlBaseStr_https host q (valuesEncode params)⟩
  · intro r hb
    by_cases hq : q = []
    · subst hq
      simp [primaryDo] at hb
    · simp only [primaryDo] at hb
      rw [if_neg hq] at hb
      split at hb
      · exact absurd hb (by simp)
      · injection hb with h2
        subst h2
        exact ⟨rfl, urlBaseStr_https host (normPath q) []⟩
  · intro w hb
    by_cases hq : q = []
    · subst hq
      simp [newRequest001] at hb
    · rw [newRequest001_eq key secret nonce ts host method q qp pp hq] at hb
      injection hb with h2
      subst h2
      exact ⟨rfl, rfl, rfl, urlBaseStr_https host (normPath q) _⟩

/-- Witness for C7 at concrete inputs for all three variants. -/
theorem url_opaque_construction_witness :
    (primaryBuilt sk ss sn st sh (strBytes "POST") (strBytes "/t") (strBytes "a=1")
        [(strBytes "a", [strBytes "1"])]).url = primaryUrl sh (normPath (strBytes "/t")) ∧
    (wrapBuilt sk ss sn st sh (strBytes "POST") (strBytes "/t") []).req.url.opq =
      normPath (strBytes "/t") ∧
    (part000Do sk ss sn st sh (strBytes "POST") (strBytes "/t") [] (strBytes "a=1")).url =
      { scheme := strBytes "https", host := sh, opq := strBytes "/t",
        rawQuery := valuesEncode ([] : Values) } := by
  have h := url_opaque_construction sk ss sn st sh (strBytes "POST") (strBytes "/t") [] [] []
    (strBytes "a=1")
  exact ⟨(h.1 _ (by decide)).1, (h.2.1 _ (by decide)).2.2.1, h.2.2.1⟩

/-- C8: a request built by the primary variant's `Do` with a mutating
method carries `Content-Type: application/x-www-form-urlencoded`, and a
successful `AttachFile` upgrades the Content-Type header to
`multipart/form-data` with the writer's boundary. -/
theorem content_type_headers :
    (∀ key secret nonce ts host method q params body r,
       mutatingB method = true →
       primaryDo key secret nonce ts host method q params body = .built r →
       hget r.header ctKey = some ctFormVal) ∧
    (∀ fs r fieldName fileName boundary r',
       attachFile fs r fieldName fileName boundary = .ok r' →
       hget r'.header ctKey = some (multipartCT boundary)) := by
  constructor
  · intro key secret nonce ts host method q params body r hm hb
    by_cases hq : q = []
    · subst hq
      simp [primaryDo] at hb
    · rw [primaryDo_eq key secret nonce ts host method q params body hq hm] at hb
      cases hp : parseQueryE body with
      | error e => rw [hp] at hb; exact absurd hb (by simp)
      | ok v =>
        rw [hp] at hb
        injection hb with h2
        subst h2
        simp only [primaryBuilt]
        rw [hget_hset_ne _ _ (by decide), hget_hset_self]
  · intro fs r fieldName fileName boundary r' h
    cases hfs : fs fileName with
    | none =>
      rw [show attachFile fs r fieldName fileName boundary = .error (.fileOpen fileName)
        from by simp [attachFile, hfs]] at h
      exact absurd h (by simp)
    | some content =>
      rw [attachFile_eq fs r fieldName fileName boundary content hfs] at h
      injection h with h2
      subst h2
      exact hget_hset_self r.header ctKey (multipartCT boundary)

/-- Witness for C8 at concrete inputs for both conjuncts. -/
theorem content_type_headers_witness :
    (∃ r, primaryDo sk ss sn st sh (strBytes "POST") (strBytes "/t") [] (strBytes "a=1") =
        .built r ∧ hget r.header ctKey = some ctFormVal) ∧
    (∃ r', attachFile (fun f => if f = strBytes "/d/a.txt" then some (strBytes "hi") else none)
        (part000Do sk ss sn st sh (strBytes "POST") (strBytes "/t") [] [])
        (strBytes "file") (strBytes "/d/a.txt") (strBytes "BB") = .ok r' ∧
      hget r'.header ctKey = some (multipartCT (strBytes "BB"))) := by
  constructor
  · refine ⟨primaryBuilt sk ss sn st sh (strBytes "POST") (strBytes "/t") (strBytes "a=1")
      [(strBytes "a", [strBytes "1"])], by decide, ?_⟩
    exact content_type_headers.1 sk ss sn st sh (strBytes "POST") (strBytes "/t") []
      (strBytes "a=1") _ (by decide) (by decide)
  · refine ⟨_, attachFile_eq
      (fun f => if f = strBytes "/d/a.txt" then some (strBytes "hi") else none)
      (part000Do sk ss sn st sh (strBytes "POST") (strBytes "/t") [] [])
      (strBytes "file") (strBytes "/d/a.txt") (strBytes "BB") (strBytes "hi") (by decide), ?_⟩
    exact content_type_headers.2 _ _ _ _ _ _
      (attachFile_eq
        (fun f => if f = strBytes "/d/a.txt" then some (strBytes "hi") else none)
        (part000Do sk ss sn st sh (strBytes "POST") (strBytes "/t") [] [])
        (strBytes "file") (strBytes "/d/a.txt") (strBytes "BB") (strBytes "hi") (by decide))

/-- C9: `DoJSON` propagates a failed dispatch's error unchanged with a nil
byte slice; on a successful dispatch it returns exactly what reading the
body fully yields — the bytes, or the IO read error. -/
theorem doJSON_error_propagation :
    (∀ e : GoErr, doJSON (.error e) = (none, some e)) ∧
    (∀ resp : HttpResponse, doJSON (.ok resp) = (some resp.bodyBytes, resp.readErr)) :=
  ⟨fun _ => rfl, fun _ => rfl⟩

/-- Witness for C9 at concrete outcomes. -/
theorem doJSON_error_propagation_witness :
    doJSON (.error (.transport (strBytes "no route to host"))) =
      (none, some (.transport (strBytes "no route to host"))) ∧
    doJSON (.ok { bodyBytes := strBytes "ok", readErr := none }) =
      (some (strBytes "ok"), none) :=
  ⟨doJSON_error_propagation.1 _, doJSON_error_propagation.2 _⟩

/-- C10: the path-normalization slice `q[0:1]` makes the primary variant's
`Do` and the wrapper variant's `NewRequest` panic on the empty path, and
the empty path is the only panicking input: a non-empty path is an unstated
precondition of the public interface. -/
theorem empty_path_not_total :
    (∀ key secret nonce ts host method params body,
       primaryDo key secret nonce ts host method [] params body = .panics) ∧
    (∀ key secret nonce ts host method qp pp,
       newRequest001 key secret nonce ts host method [] qp pp = .panics) ∧
    (∀ key secret nonce ts host method q params body, q ≠ [] →
       primaryDo key secret nonce ts host method q params body ≠ .panics) ∧
    (∀ key secret nonce ts host method q qp pp, q ≠ [] →
       newRequest001 key secret nonce ts host method q qp pp ≠ .panics) := by
  refine ⟨fun _ _ _ _ _ _ _ _ => rfl, fun _ _ _ _ _ _ _ _ => rfl, ?_, ?_⟩
  · intro key secret nonce ts host method q params body hq
    simp only [primaryDo]
    rw [if_neg hq]
    split <;> simp
  · intro key secret nonce ts host method q qp pp hq
    rw [newRequest001_eq key secret nonce ts host method q qp pp hq]
    simp

/-- Witness for C10 at the concrete non-empty path `t`. -/
theorem empty_path_not_total_witness :
    primaryDo sk ss sn st sh (strBytes "GET") (strBytes "t") [] [] ≠ .panics ∧
    newRequest001 sk ss sn st sh (strBytes "GET") (strBytes "t") [] [] ≠ .panics :=
  ⟨empty_path_not_total.2.2.1 sk ss sn st sh (strBytes "GET") (strBytes "t") [] []
     (by decide),
   empty_path_not_total.2.2.2 sk ss sn st sh (strBytes "GET") (strBytes "t") [] []
     (by decide)⟩

end GoContext
